import Mathlib

/-!
Verification of the katana repository's two applications against their
natural-language specification.

Part 1 (`MIS`) embeds `src/apps/independentset/IndependentSet.cpp`:
the serial maximal-independent-set operator `Process` (its `build` and
`modify` phases), the checker `is_bad` / `verify`, and the serial driver.

Part 2 (`BFSApp`) embeds
`src/exp/apps/compiler_outputs/bfs_push-filter/gen.cpp`: the per-vertex
operators `FirstItr_BFS::operator()` and `BFS::operator()`, the
`Syncer_0` synchronizer callbacks, and the do/while loop of `BFS::go`,
serialized for a single host (every vertex a local master, `do_all`
applied in ascending vertex order, `DGAccumulator` reduce returning the
local value).

Machine `unsigned int` values are represented as `Nat` with explicit
`% 2^32` where the code can overflow.
-/

set_option maxRecDepth 8000

namespace MIS

/-- `enum MatchFlag { UNMATCHED, OTHER_MATCHED, MATCHED }` from IndependentSet.cpp. -/
inductive MatchFlag where
  | UNMATCHED
  | OTHER_MATCHED
  | MATCHED
deriving DecidableEq

open MatchFlag

/-- `struct Node { unsigned int id; MatchFlag flag; MatchFlag pendingFlag; }`. -/
structure Node where
  id : Nat
  flag : MatchFlag
  pendingFlag : MatchFlag
deriving DecidableEq

/-- The loaded `LC_CSR_Graph<Node,void>`: vertices `0..n-1`, per-vertex
out-edge destination lists (CSR order) and per-vertex `Node` data. -/
structure Graph where
  n : Nat
  adj : Nat → List Nat
  data : Nat → Node

/-- Pointwise store update, the effect of writing through `graph.getData(v)`. -/
def upd (d : Nat → Node) (v : Nat) (x : Node) : Nat → Node :=
  fun w => if w = v then x else d w

theorem upd_same (d : Nat → Node) (v : Nat) (x : Node) : upd d v x v = x := by
  simp [upd]

theorem upd_other (d : Nat → Node) (v : Nat) (x : Node) (w : Nat) (h : w ≠ v) :
    upd d v x w = d w := by
  simp [upd, h]

/-- `Process::build` (lines 110-124): false if `src` is not UNMATCHED or some
out-neighbor is MATCHED, else true. -/
def build (g : Graph) (src : Nat) : Bool :=
  if (g.data src).flag ≠ UNMATCHED then false
  else !((g.adj src).any (fun dst => decide ((g.data dst).flag = MATCHED)))

/-- The neighbor loop of `Process::modify` (lines 128-133): set every
out-neighbor's flag to OTHER_MATCHED, in edge order. -/
def nbrFold (l : List Nat) (d : Nat → Node) : Nat → Node :=
  l.foldl (fun d dst => upd d dst { d dst with flag := OTHER_MATCHED }) d

/-- `Process::modify` (lines 126-136): flag every out-neighbor OTHER_MATCHED,
then flag `src` MATCHED (the write to `me.flag` happens after the loop). -/
def modify (g : Graph) (src : Nat) : Graph :=
  let d := nbrFold (g.adj src) g.data
  { g with data := upd d src { d src with flag := MATCHED } }

/-- The serial operator `Process::operator()(GNode)` (lines 139-142):
`if (build<NONE>(src)) modify(src);`. -/
def process (g : Graph) (src : Nat) : Graph :=
  if build g src then modify g src else g

/-- `SerialAlgo` (lines 202-206): `std::for_each(graph.begin(), graph.end(), Process<>())`,
which applies the serial operator to every vertex in ascending order. -/
def run_serial (g : Graph) : Graph :=
  (List.range g.n).foldl process g

/-- `is_bad` (lines 208-238): a MATCHED vertex is bad when some edge
destination other than itself is MATCHED; an UNMATCHED vertex is bad when no
edge destination is non-UNMATCHED; an OTHER_MATCHED vertex is never bad. -/
def is_bad (g : Graph) (v : Nat) : Bool :=
  match (g.data v).flag with
  | MATCHED =>
      (g.adj v).any (fun dst => decide (dst ≠ v) && decide ((g.data dst).flag = MATCHED))
  | UNMATCHED =>
      !((g.adj v).any (fun dst => decide ((g.data dst).flag ≠ UNMATCHED)))
  | OTHER_MATCHED => false

/-- `verify` (lines 246-248): `find_if(begin, end, is_bad()) == end`,
i.e. no vertex is bad. -/
def verify (g : Graph) : Bool :=
  (List.range g.n).all (fun v => !(is_bad g v))

/-- `is_matched` / `count_if` (lines 240-244, 273): the cardinality of the
matched set. -/
def count_matched (g : Graph) : Nat :=
  (List.range g.n).countP (fun v => decide ((g.data v).flag = MATCHED))

/-- Basic fold lemma: a vertex not in the list is untouched. -/
theorem nbrFold_not_mem (l : List Nat) (d : Nat → Node) (v : Nat) (h : v ∉ l) :
    nbrFold l d v = d v := by
  induction l generalizing d with
  | nil => rfl
  | cons a t ih =>
      simp only [List.mem_cons, not_or] at h
      simp only [nbrFold, List.foldl_cons]
      rw [show (List.foldl (fun d dst => upd d dst { d dst with flag := OTHER_MATCHED }) _ t)
            = nbrFold t (upd d a { d a with flag := OTHER_MATCHED }) from rfl]
      rw [ih _ h.2, upd_other _ _ _ _ h.1]

/-- The fold never changes `id` or `pendingFlag`. -/
theorem nbrFold_preserves (l : List Nat) (d : Nat → Node) (v : Nat) :
    ((nbrFold l d) v).id = (d v).id ∧ ((nbrFold l d) v).pendingFlag = (d v).pendingFlag := by
  induction l generalizing d with
  | nil => exact ⟨rfl, rfl⟩
  | cons a t ih =>
      simp only [nbrFold, List.foldl_cons] at *
      refine ⟨?_, ?_⟩ <;>
      · rcases ih (upd d a { d a with flag := OTHER_MATCHED }) with ⟨h1, h2⟩
        first
        | rw [h1] | rw [h2]
        by_cases hv : v = a
        · subst hv; simp [upd]
        · rw [upd_other _ _ _ _ hv]

/-- After the fold, every listed vertex is flagged OTHER_MATCHED. -/
theorem nbrFold_mem (l : List Nat) (d : Nat → Node) (v : Nat) (h : v ∈ l) :
    ((nbrFold l d) v).flag = OTHER_MATCHED := by
  induction l generalizing d with
  | nil => cases h
  | cons a t ih =>
      simp only [nbrFold, List.foldl_cons]
      by_cases ht : v ∈ t
      · exact ih _ ht
      · have hva : v = a := by
          rcases List.mem_cons.mp h with h' | h'
          · exact h'
          · exact absurd h' ht
        subst hva
        rw [show (List.foldl (fun d dst => upd d dst { d dst with flag := OTHER_MATCHED }) _ t)
              = nbrFold t (upd d v { d v with flag := OTHER_MATCHED }) from rfl]
        rw [nbrFold_not_mem _ _ _ ht, upd_same]

/-- Positive branch of `build`: the operator will modify iff `src` is
UNMATCHED and no out-neighbor is MATCHED. -/
theorem build_eq_true_iff (g : Graph) (src : Nat) :
    build g src = true ↔
      (g.data src).flag = UNMATCHED ∧ ∀ t ∈ g.adj src, (g.data t).flag ≠ MATCHED := by
  unfold build
  by_cases h : (g.data src).flag = UNMATCHED
  · simp [h, List.any_eq_true]
  · simp [h]

/-- Two UNMATCHED vertices joined by an edge in both directions. -/
def gWpos : Graph :=
  { n := 2,
    adj := fun v => if v = 0 then [1] else if v = 1 then [0] else [],
    data := fun v => { id := v, flag := UNMATCHED, pendingFlag := UNMATCHED } }

/-- A single vertex already MATCHED, with no edges. -/
def gWneg : Graph :=
  { n := 1, adj := fun _ => [],
    data := fun _ => { id := 0, flag := MATCHED, pendingFlag := UNMATCHED } }

/-- C3: the serial MIS operator changes nothing when `s` is not UNMATCHED or
some out-neighbor is MATCHED; otherwise it flags every out-neighbor (other
than `s` itself) OTHER_MATCHED, flags `s` MATCHED, preserves every `id` and
`pendingFlag`, and leaves every vertex outside `{s} ∪ adj s` untouched. -/
theorem process_serial_spec (g : Graph) (s : Nat) :
    ((¬ (g.data s).flag = UNMATCHED ∨ ∃ t ∈ g.adj s, (g.data t).flag = MATCHED) →
        process g s = g) ∧
    ((g.data s).flag = UNMATCHED →
      (∀ t ∈ g.adj s, (g.data t).flag ≠ MATCHED) →
        ((process g s).data s).flag = MATCHED ∧
        (∀ t ∈ g.adj s, t ≠ s → ((process g s).data t).flag = OTHER_MATCHED) ∧
        (∀ v, ((process g s).data v).id = (g.data v).id ∧
              ((process g s).data v).pendingFlag = (g.data v).pendingFlag) ∧
        (∀ v, v ∉ g.adj s → v ≠ s → (process g s).data v = g.data v) ∧
        (process g s).adj = g.adj ∧ (process g s).n = g.n) := by
  constructor
  · intro h
    have hb : ¬ (build g s = true) := by
      rw [build_eq_true_iff]
      rintro ⟨h1, h2⟩
      rcases h with h | ⟨t, ht, hm⟩
      · exact h h1
      · exact h2 t ht hm
    simp [process, hb]
  · intro h1 h2
    have hb : build g s = true := (build_eq_true_iff g s).mpr ⟨h1, h2⟩
    have hp : process g s = modify g s := by simp [process, hb]
    rw [hp]
    refine ⟨?_, ?_, ?_, ?_, rfl, rfl⟩
    · show ((upd (nbrFold (g.adj s) g.data) s _) s).flag = MATCHED
      rw [upd_same]
    · intro t ht hts
      show ((upd (nbrFold (g.adj s) g.data) s _) t).flag = OTHER_MATCHED
      rw [upd_other _ _ _ _ hts]
      exact nbrFold_mem _ _ _ ht
    · intro v
      show ((upd (nbrFold (g.adj s) g.data) s _) v).id = _ ∧
           ((upd (nbrFold (g.adj s) g.data) s _) v).pendingFlag = _
      by_cases hv : v = s
      · subst hv
        rw [upd_same]
        exact nbrFold_preserves _ _ _
      · rw [upd_other _ _ _ _ hv]
        exact nbrFold_preserves _ _ _
    · intro v hadj hvs
      show (upd (nbrFold (g.adj s) g.data) s _) v = g.data v
      rw [upd_other _ _ _ _ hvs, nbrFold_not_mem _ _ _ hadj]

/-- C3 witness: both branches of `process_serial_spec` at concrete inputs. -/
theorem process_serial_spec_witness :
    ((process gWpos 0).data 0).flag = MATCHED ∧ process gWneg 0 = gWneg :=
  ⟨((process_serial_spec gWpos 0).2 (by decide) (by decide)).1,
   (process_serial_spec gWneg 0).1 (Or.inl (by decide))⟩

/-- C9: the serial MIS operator is idempotent: a second application to the
same vertex is a no-op. -/
theorem process_idempotent (g : Graph) (s : Nat) :
    process (process g s) s = process g s := by
  by_cases hb : build g s = true
  · have hp : process g s = modify g s := if_pos hb
    have hflag : ((modify g s).data s).flag = MATCHED := by
      show ((upd (nbrFold (g.adj s) g.data) s _) s).flag = MATCHED
      rw [upd_same]
    have hb2 : ¬ (build (process g s) s = true) := by
      rw [hp, build_eq_true_iff, hflag]
      rintro ⟨h, -⟩
      exact MatchFlag.noConfusion h
    exact if_neg hb2
  · have h0 : process g s = g := if_neg hb
    have hb2 : ¬ (build (process g s) s = true) := by rw [h0]; exact hb
    exact if_neg hb2

/-- The 0—1—2—3—4 path graph, edges stored in both directions, all vertices
initially UNMATCHED. -/
def pathG : Graph :=
  { n := 5,
    adj := fun v =>
      if v = 0 then [1] else if v = 1 then [0, 2] else if v = 2 then [1, 3]
      else if v = 3 then [2, 4] else if v = 4 then [3] else [],
    data := fun v => { id := v, flag := UNMATCHED, pendingFlag := UNMATCHED } }

/-- C8: the serial algorithm on the path graph, worklist ascending, yields
flags MATCHED, OTHER_MATCHED, MATCHED, OTHER_MATCHED, MATCHED and an
independent set of cardinality 3. -/
theorem mis_path_scenario :
    ((run_serial pathG).data 0).flag = MATCHED ∧
    ((run_serial pathG).data 1).flag = OTHER_MATCHED ∧
    ((run_serial pathG).data 2).flag = MATCHED ∧
    ((run_serial pathG).data 3).flag = OTHER_MATCHED ∧
    ((run_serial pathG).data 4).flag = MATCHED ∧
    count_matched (run_serial pathG) = 3 := by decide

/-- The per-vertex condition claimed for `verify` (C5, as stated): a MATCHED
vertex has no MATCHED neighbor at all, an UNMATCHED vertex has a
non-UNMATCHED neighbor. -/
def claimPredC5 (g : Graph) : Prop :=
  ∀ v ∈ List.range g.n,
    ((g.data v).flag = MATCHED → ∀ t ∈ g.adj v, (g.data t).flag ≠ MATCHED) ∧
    ((g.data v).flag = UNMATCHED → ∃ t ∈ g.adj v, (g.data t).flag ≠ UNMATCHED)

/-- The per-vertex condition `verify` actually decides: the MATCHED clause
exempts the vertex itself (the `dst != n` test in `is_bad`). -/
def amendPredC5 (g : Graph) : Prop :=
  ∀ v ∈ List.range g.n,
    ((g.data v).flag = MATCHED → ∀ t ∈ g.adj v, t ≠ v → (g.data t).flag ≠ MATCHED) ∧
    ((g.data v).flag = UNMATCHED → ∃ t ∈ g.adj v, (g.data t).flag ≠ UNMATCHED)

/-- A MATCHED vertex carrying a self-loop: `verify` accepts it, the claimed
condition rejects it. -/
def gSelfLoop : Graph :=
  { n := 1, adj := fun _ => [0],
    data := fun _ => { id := 0, flag := MATCHED, pendingFlag := UNMATCHED } }

/-- C5 counterexample: on the self-loop graph `verify` returns true while the
claimed condition fails, so the claimed equivalence is false. -/
theorem verify_claim_counterexample :
    ¬ (verify gSelfLoop = true ↔ claimPredC5 gSelfLoop) := by
  intro h
  have h2 : claimPredC5 gSelfLoop := h.mp (by decide)
  have h3 := (h2 0 (by decide)).1 (by decide) 0 (by decide)
  exact h3 (by decide)

/-- Per-vertex reading of `is_bad`. -/
theorem is_bad_eq_false_iff (g : Graph) (v : Nat) :
    is_bad g v = false ↔
      (((g.data v).flag = MATCHED → ∀ t ∈ g.adj v, t ≠ v → (g.data t).flag ≠ MATCHED) ∧
       ((g.data v).flag = UNMATCHED → ∃ t ∈ g.adj v, (g.data t).flag ≠ UNMATCHED)) := by
  cases hf : (g.data v).flag with
  | MATCHED =>
      simp only [is_bad, hf]
      rw [← Bool.not_eq_true, List.any_eq_true]
      push_neg
      simp
  | UNMATCHED =>
      simp only [is_bad, hf]
      rw [Bool.not_eq_false', List.any_eq_true]
      simp
  | OTHER_MATCHED =>
      simp [is_bad, hf]

/-- C5 amended: `verify` returns true iff every MATCHED vertex has no MATCHED
neighbor other than itself and every UNMATCHED vertex has a non-UNMATCHED
neighbor. -/
theorem verify_iff_amended (g : Graph) : verify g = true ↔ amendPredC5 g := by
  unfold verify amendPredC5
  rw [List.all_eq_true]
  constructor
  · intro h v hv
    exact (is_bad_eq_false_iff g v).mp (by simpa using h v hv)
  · intro h v hv
    simpa using (is_bad_eq_false_iff g v).mpr (h v hv)

/-- C5 witness: the amended equivalence instantiated on the self-loop graph. -/
theorem verify_iff_amended_witness : amendPredC5 gSelfLoop :=
  (verify_iff_amended gSelfLoop).mp (by decide)

end MIS

namespace BFSApp

/-- One past the largest `unsigned int`: machine arithmetic is `% uintMod`. -/
def uintMod : Nat := 4294967296

/-- `std::numeric_limits<unsigned int>::max()`. -/
def uintMax : Nat := 4294967295

/-- `const unsigned int infinity = std::numeric_limits<unsigned int>::max()/4`
(gen.cpp line 93). -/
def infinity : Nat := uintMax / 4

/-- `struct NodeData { std::atomic<unsigned int> dist_current; unsigned int dist_old; }`. -/
structure NodeData where
  dist_current : Nat
  dist_old : Nat
deriving DecidableEq

/-- The single-host partitioned graph: vertices `0..n-1` are all local
masters, `adj` lists out-edge destinations in CSR order, `accum` is the
(local) `DGAccumulator_accum` value. -/
structure BGraph where
  n : Nat
  adj : Nat → List Nat
  data : Nat → NodeData
  accum : Nat

/-- Pointwise store update, the effect of writing through `graph->getData(v)`. -/
def updD (d : Nat → NodeData) (v : Nat) (x : NodeData) : Nat → NodeData :=
  fun w => if w = v then x else d w

theorem updD_same (d : Nat → NodeData) (v : Nat) (x : NodeData) : updD d v x v = x := by
  simp [updD]

theorem updD_other (d : Nat → NodeData) (v : Nat) (x : NodeData) (w : Nat) (h : w ≠ v) :
    updD d v x w = d w := by
  simp [updD, h]

/-- `snode.dist_old = snode.dist_current;` — the write both operators make
before their edge loop. -/
def setOld (d : Nat → NodeData) (s : Nat) : Nat → NodeData :=
  updD d s { d s with dist_old := (d s).dist_current }

/-- One edge relaxation: `new_dist = 1 + snode.dist_current;`
`Galois::atomicMin(dnode.dist_current, new_dist);` — `snode.dist_current` is
re-read on every loop iteration, and the sum is `unsigned int` arithmetic. -/
def relaxStep (s : Nat) (d : Nat → NodeData) (t : Nat) : Nat → NodeData :=
  updD d t { d t with
    dist_current := min (d t).dist_current ((1 + (d s).dist_current) % uintMod) }

/-- The edge loop of `FirstItr_BFS::operator()` and `BFS::operator()`:
relax each outgoing edge of `s` in CSR order. -/
def relaxEdges (adjs : List Nat) (s : Nat) (d : Nat → NodeData) : Nat → NodeData :=
  adjs.foldl (relaxStep s) d

/-- `FirstItr_BFS::operator()` (gen.cpp lines 270-281): unconditionally save
`dist_current` into `dist_old`, then relax every outgoing edge. -/
def firstItr_op (g : BGraph) (s : Nat) : BGraph :=
  { g with data := relaxEdges (g.adj s) s (setOld g.data s) }

/-- `BFS::operator()` (gen.cpp lines 397-413): only when
`dist_old > dist_current`, save `dist_current` into `dist_old`, add 1 to
`DGAccumulator_accum`, and relax every outgoing edge. -/
def BFS_op (g : BGraph) (s : Nat) : BGraph :=
  if (g.data s).dist_old > (g.data s).dist_current then
    { g with data := relaxEdges (g.adj s) s (setOld g.data s), accum := g.accum + 1 }
  else g

/-- `InitializeGraph::operator()` (gen.cpp lines 163-167): distance 0 at the
source vertex, `infinity` elsewhere, in both fields. -/
def initializeGraph_op (d : Nat → NodeData) (src v : Nat) : Nat → NodeData :=
  updD d v (if v = src then ⟨0, 0⟩ else ⟨infinity, infinity⟩)

/-- Relaxation never touches `dist_old`. -/
theorem relaxEdges_dist_old (adjs : List Nat) (s : Nat) :
    ∀ (d : Nat → NodeData) (v : Nat),
      ((relaxEdges adjs s d) v).dist_old = (d v).dist_old := by
  induction adjs with
  | nil => intro d v; rfl
  | cons a rest ih =>
      intro d v
      rw [show relaxEdges (a :: rest) s d = relaxEdges rest s (relaxStep s d a) from rfl,
        ih]
      by_cases hv : v = a
      · subst hv; simp [relaxStep, updD_same]
      · simp [relaxStep, updD_other _ _ _ _ hv]

/-- A vertex that no edge of the list points to is untouched. -/
theorem relaxEdges_not_mem (adjs : List Nat) (s : Nat) :
    ∀ (d : Nat → NodeData) (v : Nat), v ∉ adjs → (relaxEdges adjs s d) v = d v := by
  induction adjs with
  | nil => intro d v _; rfl
  | cons a rest ih =>
      intro d v hv
      simp only [List.mem_cons, not_or] at hv
      rw [show relaxEdges (a :: rest) s d = relaxEdges rest s (relaxStep s d a) from rfl,
        ih _ _ hv.2, relaxStep, updD_other _ _ _ _ hv.1]

/-- `atomicMin` only lowers `dist_current`, so relaxation never raises it. -/
theorem relaxEdges_dc_le (adjs : List Nat) (s : Nat) :
    ∀ (d : Nat → NodeData) (v : Nat),
      ((relaxEdges adjs s d) v).dist_current ≤ (d v).dist_current := by
  induction adjs with
  | nil => intro d v; exact Nat.le_refl _
  | cons a rest ih =>
      intro d v
      refine Nat.le_trans (ih (relaxStep s d a) v) ?_
      by_cases hv : v = a
      · subst hv
        simp only [relaxStep, updD_same]
        exact Nat.min_le_left _ _
      · rw [relaxStep, updD_other _ _ _ _ hv]

/-- When `1 + dist_current` does not overflow at `s`, one relaxation step
cannot change the distance at `s` (even through a self-loop). -/
theorem relaxStep_source (s : Nat) (d : Nat → NodeData) (a : Nat)
    (hov : 1 + (d s).dist_current < uintMod) :
    ((relaxStep s d a) s).dist_current = (d s).dist_current := by
  by_cases hsa : s = a
  · subst hsa
    simp only [relaxStep, updD_same, Nat.mod_eq_of_lt hov]
    exact Nat.min_eq_left (Nat.le_add_left _ _)
  · rw [relaxStep, updD_other _ _ _ _ hsa]

/-- Pointwise description of the edge loop when `1 + dist_current` does not
overflow at the source: every target ends at the min of its old distance and
`1 + dist_current(s)`, everything else is unchanged. -/
theorem relaxEdges_dc (adjs : List Nat) (s : Nat) :
    ∀ (d : Nat → NodeData), 1 + (d s).dist_current < uintMod → ∀ (t : Nat),
      ((relaxEdges adjs s d) t).dist_current =
        if t ∈ adjs then min (d t).dist_current (1 + (d s).dist_current)
        else (d t).dist_current := by
  induction adjs with
  | nil => intro d _ t; simp [relaxEdges]
  | cons a rest ih =>
      intro d hov t
      have hs1 : ((relaxStep s d a) s).dist_current = (d s).dist_current :=
        relaxStep_source s d a hov
      have hov1 : 1 + ((relaxStep s d a) s).dist_current < uintMod := by
        rw [hs1]; exact hov
      rw [show relaxEdges (a :: rest) s d = relaxEdges rest s (relaxStep s d a) from rfl,
        ih (relaxStep s d a) hov1 t, hs1]
      by_cases hta : t = a
      · subst hta
        have hstep : ((relaxStep s d t) t).dist_current
            = min (d t).dist_current (1 + (d s).dist_current) := by
          simp [relaxStep, updD_same, Nat.mod_eq_of_lt hov]
        rw [hstep]
        by_cases htr : t ∈ rest
        · simp only [htr, if_pos, List.mem_cons, true_or, if_true]
          rw [min_assoc, min_self]
        · simp [htr, List.mem_cons]
      · have hstep : ((relaxStep s d a) t).dist_current = (d t).dist_current := by
          simp [relaxStep, updD_other _ _ _ _ hta]
        rw [hstep]
        by_cases htr : t ∈ rest
        · simp [htr, List.mem_cons]
        · simp [htr, List.mem_cons, hta]

/-- Combined description of `dist_old := dist_current; <edge loop>` as
performed by both operators, under no overflow at the source. -/
theorem relax_setOld_spec (g : BGraph) (s : Nat)
    (hov : 1 + (g.data s).dist_current < uintMod) :
    ((relaxEdges (g.adj s) s (setOld g.data s)) s).dist_old = (g.data s).dist_current ∧
    ((relaxEdges (g.adj s) s (setOld g.data s)) s).dist_current = (g.data s).dist_current ∧
    (∀ t ∈ g.adj s, ((relaxEdges (g.adj s) s (setOld g.data s)) t).dist_current
        = min (g.data t).dist_current (1 + (g.data s).dist_current)) ∧
    (∀ t, t ≠ s → ((relaxEdges (g.adj s) s (setOld g.data s)) t).dist_old
        = (g.data t).dist_old) ∧
    (∀ v, v ∉ g.adj s → v ≠ s → (relaxEdges (g.adj s) s (setOld g.data s)) v = g.data v) := by
  have hsc : (setOld g.data s s).dist_current = (g.data s).dist_current := by
    simp [setOld, updD_same]
  have hso : (setOld g.data s s).dist_old = (g.data s).dist_current := by
    simp [setOld, updD_same]
  have hov' : 1 + (setOld g.data s s).dist_current < uintMod := by rw [hsc]; exact hov
  have hdc : ∀ v, (setOld g.data s v).dist_current = (g.data v).dist_current := by
    intro v
    by_cases hv : v = s
    · subst hv; exact hsc
    · rw [setOld, updD_other _ _ _ _ hv]
  refine ⟨?_, ?_, ?_, ?_, ?_⟩
  · rw [relaxEdges_dist_old, hso]
  · rw [relaxEdges_dc _ _ _ hov' s, hsc]
    by_cases hs : s ∈ g.adj s
    · simp only [hs, if_true]
      exact Nat.min_eq_left (Nat.le_add_left _ _)
    · simp [hs]
  · intro t ht
    rw [relaxEdges_dc _ _ _ hov' t, hsc, hdc t]
    simp [ht]
  · intro t hts
    rw [relaxEdges_dist_old, setOld, updD_other _ _ _ _ hts]
  · intro v hadj hvs
    rw [relaxEdges_not_mem _ _ _ _ hadj, setOld, updD_other _ _ _ _ hvs]

/-- Two vertices, edge 0 → 1, with `dist_current` at the source equal to
`UINT_MAX`, so `1 + dist_current` wraps to 0. -/
def gOv : BGraph :=
  { n := 2,
    adj := fun v => if v = 0 then [1] else [],
    data := fun v => if v = 0 then ⟨uintMax, uintMax⟩ else ⟨7, 7⟩,
    accum := 0 }

/-- C7 counterexample: on `gOv` the bootstrap operator drives vertex 1's
`dist_current` to 0 (the wrapped `1 + UINT_MAX`), while the claimed update
`min(dist_current(1), dist_current(0) + 1)` is 7. -/
theorem firstItr_claim_counterexample :
    ((firstItr_op gOv 0).data 1).dist_current = 0 ∧
    min (gOv.data 1).dist_current ((gOv.data 0).dist_current + 1) = 7 := by
  exact ⟨by decide, by decide⟩

/-- C7 amended: provided `1 + dist_current(s)` does not overflow `unsigned
int`, the bootstrap operator saves `dist_current(s)` into `dist_old(s)`,
lowers each edge target `t` to `min(dist_current(t), dist_current(s) + 1)`,
changes no other vertex data, and leaves the accumulator alone. -/
theorem firstItr_op_spec (g : BGraph) (s : Nat)
    (hov : (g.data s).dist_current + 1 < uintMod) :
    ((firstItr_op g s).data s).dist_old = (g.data s).dist_current ∧
    ((firstItr_op g s).data s).dist_current = (g.data s).dist_current ∧
    (∀ t ∈ g.adj s, ((firstItr_op g s).data t).dist_current
        = min (g.data t).dist_current ((g.data s).dist_current + 1)) ∧
    (∀ t, t ≠ s → ((firstItr_op g s).data t).dist_old = (g.data t).dist_old) ∧
    (∀ v, v ∉ g.adj s → v ≠ s → (firstItr_op g s).data v = g.data v) ∧
    (firstItr_op g s).accum = g.accum ∧
    (firstItr_op g s).n = g.n ∧ (firstItr_op g s).adj = g.adj := by
  have hov' : 1 + (g.data s).dist_current < uintMod := by omega
  obtain ⟨h1, h2, h3, h4, h5⟩ := relax_setOld_spec g s hov'
  refine ⟨h1, h2, ?_, h4, h5, rfl, rfl, rfl⟩
  intro t ht
  rw [Nat.add_comm (g.data s).dist_current 1]
  exact h3 t ht

/-- Two vertices, edge 0 → 1, the source at distance 0 with a stale
`dist_old = 5`, the target at distance 7. -/
def gRelax : BGraph :=
  { n := 2,
    adj := fun v => if v = 0 then [1] else [],
    data := fun v => if v = 0 then ⟨0, 5⟩ else ⟨7, 7⟩,
    accum := 0 }

/-- C7 witness: the amended bootstrap description evaluated on `gRelax`. -/
theorem firstItr_op_spec_witness :
    ((firstItr_op gRelax 0).data 1).dist_current
      = min (gRelax.data 1).dist_current ((gRelax.data 0).dist_current + 1) :=
  (firstItr_op_spec gRelax 0 (by decide)).2.2.1 1 (by decide)

/-- C4: the steady operator fires exactly when `dist_old > dist_current`; it
then saves `dist_current` into `dist_old`, adds 1 to the accumulator and
lowers each edge target to `min(dist_current(t), dist_current(s) + 1)`,
touching nothing else; when the guard fails it is the identity. The single
hypothesis is the `unsigned int` range invariant on `dist_old(s)`, under
which the guard itself rules out overflow of `1 + dist_current(s)`. -/
theorem BFS_op_spec (g : BGraph) (s : Nat)
    (hwf : (g.data s).dist_old < uintMod) :
    ((g.data s).dist_old > (g.data s).dist_current →
      ((BFS_op g s).data s).dist_old = (g.data s).dist_current ∧
      ((BFS_op g s).data s).dist_current = (g.data s).dist_current ∧
      (BFS_op g s).accum = g.accum + 1 ∧
      (∀ t ∈ g.adj s, ((BFS_op g s).data t).dist_current
          = min (g.data t).dist_current ((g.data s).dist_current + 1)) ∧
      (∀ t, t ≠ s → ((BFS_op g s).data t).dist_old = (g.data t).dist_old) ∧
      (∀ v, v ∉ g.adj s → v ≠ s → (BFS_op g s).data v = g.data v) ∧
      (BFS_op g s).n = g.n ∧ (BFS_op g s).adj = g.adj) ∧
    (¬ ((g.data s).dist_old > (g.data s).dist_current) → BFS_op g s = g) := by
  constructor
  · intro hgt
    have hov' : 1 + (g.data s).dist_current < uintMod := by omega
    have hfire : BFS_op g s
        = { g with data := relaxEdges (g.adj s) s (setOld g.data s), accum := g.accum + 1 } :=
      if_pos hgt
    obtain ⟨h1, h2, h3, h4, h5⟩ := relax_setOld_spec g s hov'
    rw [hfire]
    refine ⟨h1, h2, rfl, ?_, h4, h5, rfl, rfl⟩
    intro t ht
    rw [Nat.add_comm (g.data s).dist_current 1]
    exact h3 t ht
  · intro hle
    exact if_neg hle

/-- C4 witness: the steady operator fired on `gRelax` at vertex 0. -/
theorem BFS_op_spec_witness :
    ((BFS_op gRelax 0).data 0).dist_old = (gRelax.data 0).dist_current ∧
    (BFS_op gRelax 0).accum = gRelax.accum + 1 ∧
    ((BFS_op gRelax 0).data 1).dist_current
      = min (gRelax.data 1).dist_current ((gRelax.data 0).dist_current + 1) := by
  have h := (BFS_op_spec gRelax 0 (by decide)).1 (by decide)
  exact ⟨h.1, h.2.2.1, h.2.2.2.1 1 (by decide)⟩

/-- C10: starting from any state where every `dist_current` is at most the
sentinel `infinity = UINT_MAX/4`, every `new_dist = 1 + dist_current(s)`
computed during the edge loop of either operator (the loop over
`(g.adj s).take i` is the accumulator state in which the `i+1`-st `new_dist`
is evaluated; both `FirstItr_BFS` and `BFS` relax from `setOld g.data s`)
is unaffected by the `% 2^32` of `unsigned int` arithmetic and in
particular never wraps to 0. -/
theorem new_dist_no_overflow (g : BGraph) (s : Nat)
    (hinv : ∀ v, (g.data v).dist_current ≤ infinity) :
    ∀ i : Nat,
      (1 + ((relaxEdges ((g.adj s).take i) s (setOld g.data s)) s).dist_current) % uintMod
        = 1 + ((relaxEdges ((g.adj s).take i) s (setOld g.data s)) s).dist_current ∧
      (1 + ((relaxEdges ((g.adj s).take i) s (setOld g.data s)) s).dist_current) % uintMod
        ≠ 0 := by
  intro i
  have h1 : ((relaxEdges ((g.adj s).take i) s (setOld g.data s)) s).dist_current
      ≤ (setOld g.data s s).dist_current := relaxEdges_dc_le _ _ _ _
  have h2 : (setOld g.data s s).dist_current = (g.data s).dist_current := by
    simp [setOld, updD_same]
  have h3 : ((relaxEdges ((g.adj s).take i) s (setOld g.data s)) s).dist_current
      ≤ infinity := by
    rw [h2] at h1
    exact Nat.le_trans h1 (hinv s)
  have hbound : infinity + 1 < uintMod := by decide
  have h4 : 1 + ((relaxEdges ((g.adj s).take i) s (setOld g.data s)) s).dist_current
      < uintMod := by omega
  refine ⟨Nat.mod_eq_of_lt h4, ?_⟩
  rw [Nat.mod_eq_of_lt h4]
  omega

/-- The bootstrap `do_all` of `FirstItr_BFS::go`, serialized in ascending
vertex order. -/
def do_all_first (g : BGraph) : BGraph :=
  (List.range g.n).foldl firstItr_op g

/-- The steady `do_all` of `BFS::go`, serialized in ascending vertex order. -/
def do_all_bfs (g : BGraph) : BGraph :=
  (List.range g.n).foldl BFS_op g

/-- Overwrite the accumulator (`DGAccumulator_accum.reset()` writes 0). -/
def setAccum (g : BGraph) (a : Nat) : BGraph :=
  { g with accum := a }

/-- One steady round of `BFS::go`: `DGAccumulator_accum.reset();` then the
`do_all`; on a single host `sync_push`/`sync_pull` have no mirrors to move,
so they are identities. -/
def steadyRound (g : BGraph) : BGraph :=
  do_all_bfs (setAccum g 0)

/-- The `do { ... } while (DGAccumulator_accum.reduce());` of `BFS::go`
(lines 293-392), with explicit fuel standing for partiality. On a single host
`reduce` returns the local accumulator value. The loop body contains no test
of `maxIterations` — the option is parsed (line 74) and reported as a
statistic (line 421) but never read by the loop. Returns the final state and
the number of steady rounds executed. -/
def bfsLoop : Nat → BGraph → Option (BGraph × Nat)
  | 0, _ => none
  | fuel + 1, g =>
      let g1 := steadyRound g
      if g1.accum = 0 then some (g1, 1)
      else
        match bfsLoop fuel g1 with
        | none => none
        | some (h, k) => some (h, k + 1)

/-- `BFS::go`: the bootstrap `FirstItr_BFS::go(_graph)` once, then the
do/while of steady rounds. -/
def BFS_go (fuel : Nat) (g : BGraph) : Option (BGraph × Nat) :=
  bfsLoop fuel (do_all_first g)

/-- Two vertices, edge 1 → 0, source at vertex 1 (the post-`InitializeGraph`
state): the run takes exactly 2 steady rounds. -/
def lineG : BGraph :=
  { n := 2,
    adj := fun v => if v = 1 then [0] else [],
    data := fun v => if v = 1 then ⟨0, 0⟩ else ⟨infinity, infinity⟩,
    accum := 0 }

/-- Soundness of the embedded do/while: whenever it returns, it executed at
least one steady round, the final state is the round iterate, the final
round's accumulator is 0 and every earlier round's accumulator is nonzero. -/
theorem bfsLoop_sound : ∀ (fuel : Nat) (g : BGraph) (k : Nat),
    (bfsLoop fuel g).map Prod.snd = some k →
    1 ≤ k ∧ (bfsLoop fuel g).map Prod.fst = some (steadyRound^[k] g) ∧
    (steadyRound^[k] g).accum = 0 ∧
    ∀ j, 1 ≤ j → j < k → (steadyRound^[j] g).accum ≠ 0 := by
  intro fuel
  induction fuel with
  | zero =>
      intro g k h
      exact absurd h (by simp [bfsLoop])
  | succ fuel ih =>
      intro g k h
      by_cases hz : (steadyRound g).accum = 0
      · have he : bfsLoop (fuel + 1) g = some (steadyRound g, 1) := by
          simp [bfsLoop, hz]
        rw [he] at h
        simp only [Option.map_some', Option.some.injEq] at h
        subst h
        refine ⟨Nat.le_refl 1, ?_, ?_, ?_⟩
        · rw [he, Function.iterate_one]
          rfl
        · rw [Function.iterate_one]
          exact hz
        · intro j hj1 hj2
          omega
      · cases hb : bfsLoop fuel (steadyRound g) with
        | none =>
            have he : bfsLoop (fuel + 1) g = none := by
              simp [bfsLoop, hz, hb]
            rw [he] at h
            exact absurd h (by simp)
        | some p =>
            obtain ⟨gl, k0⟩ := p
            have he : bfsLoop (fuel + 1) g = some (gl, k0 + 1) := by
              simp [bfsLoop, hz, hb]
            rw [he] at h
            simp only [Option.map_some', Option.some.injEq] at h
            subst h
            obtain ⟨h1, h2, h3, h4⟩ := ih (steadyRound g) k0 (by rw [hb]; rfl)
            rw [hb] at h2
            simp only [Option.map_some', Option.some.injEq] at h2
            refine ⟨by omega, ?_, ?_, ?_⟩
            · rw [he]
              simp only [Option.map_some', Option.some.injEq]
              rw [Function.iterate_succ_apply]
              exact h2
            · rw [Function.iterate_succ_apply]
              exact h3
            · intro j hj1 hj2
              obtain ⟨j', rfl⟩ := Nat.exists_eq_add_of_le hj1
              rw [Nat.add_comm 1 j', Function.iterate_succ_apply]
              by_cases hj0 : j' = 0
              · subst hj0
                exact hz
              · exact h4 j' (Nat.pos_of_ne_zero hj0) (by omega)

/-- C6: the distributed loop runs the bootstrap once, then steady rounds
that each start by resetting the accumulator; it repeats exactly while the
end-of-round reduce is nonzero, so at least one steady round always runs and
the loop stops at the first round whose reduce is 0. -/
theorem bfs_go_rounds (g : BGraph) (fuel k : Nat)
    (h : (BFS_go fuel g).map Prod.snd = some k) :
    1 ≤ k ∧
    (BFS_go fuel g).map Prod.fst = some (steadyRound^[k] (do_all_first g)) ∧
    (steadyRound^[k] (do_all_first g)).accum = 0 ∧
    (∀ j, 1 ≤ j → j < k → (steadyRound^[j] (do_all_first g)).accum ≠ 0) ∧
    (∀ (g0 : BGraph) (a : Nat), steadyRound (setAccum g0 a) = steadyRound g0) := by
  obtain ⟨h1, h2, h3, h4⟩ := bfsLoop_sound fuel (do_all_first g) k h
  exact ⟨h1, h2, h3, h4, fun g0 a => rfl⟩

/-- C6 witness: the round structure evaluated on `lineG` (2 steady rounds). -/
theorem bfs_go_rounds_witness :
    1 ≤ 2 ∧
    (BFS_go 10 lineG).map Prod.fst = some (steadyRound^[2] (do_all_first lineG)) ∧
    (steadyRound^[2] (do_all_first lineG)).accum = 0 ∧
    (∀ j, 1 ≤ j → j < 2 → (steadyRound^[j] (do_all_first lineG)).accum ≠ 0) ∧
    (∀ (g0 : BGraph) (a : Nat), steadyRound (setAccum g0 a) = steadyRound g0) :=
  bfs_go_rounds lineG 10 2 (by decide)

/-- C1 (code bug witness): with cap `maxIterations = 1`, the run on `lineG`
still executes 2 steady rounds — the do/while of `BFS::go` never consults
`maxIterations`, so the loop does not halt at the cap. -/
theorem bfs_go_ignores_cap :
    (BFS_go 10 lineG).map Prod.snd = some 2 ∧ 1 < 2 :=
  ⟨by decide, by decide⟩

/-- `Syncer_0::extract` (gen.cpp lines 175-181, CPU path):
`return node.dist_current;`. -/
def Syncer_0_extract (node : NodeData) : Nat :=
  node.dist_current

/-- `Syncer_0::reduce` (gen.cpp lines 192-198, CPU path):
`Galois::min(node.dist_current, y)` — fold the received value in with min. -/
def Syncer_0_reduce (node : NodeData) (y : Nat) : NodeData :=
  { node with dist_current := min node.dist_current y }

/-- `Syncer_0::reset` (gen.cpp lines 209-215, CPU path):
`node.dist_current = std::numeric_limits<unsigned int>::max();`. -/
def Syncer_0_reset (node : NodeData) : NodeData :=
  { node with dist_current := uintMax }

/-- A synchronized field for one boundary vertex: the master's copy plus the
copies held at the hosts that mirror it. -/
structure MirroredField where
  master : NodeData
  mirrors : List NodeData
deriving DecidableEq

/-- Modelled from the spec: the `sync_push` phase of `hGraph` is not among
the sources; §4.5 prescribes that each mirror's value is extracted (the
mirror being returned to the reset value), shipped to the master's host, and
folded in with `reduce`. The `extract` / `reduce` / `reset` callbacks are the
`Syncer_0` ones from gen.cpp. -/
def sync_push (f : MirroredField) : MirroredField :=
  { master := f.mirrors.foldl (fun m v => Syncer_0_reduce m (Syncer_0_extract v)) f.master,
    mirrors := f.mirrors.map Syncer_0_reset }

/-- A master holding 0 with one mirror holding 5. -/
def fEx : MirroredField :=
  { master := ⟨0, 0⟩, mirrors := [⟨5, 5⟩] }

/-- C2 counterexample: after `sync_push` the mirror of `fEx` holds
`UINT_MAX = 4294967295`, not the sentinel `infinity = UINT_MAX/4`, so the
claim that every mirror equals the sentinel is false. -/
theorem sync_push_sentinel_counterexample :
    ¬ (∀ m ∈ (sync_push fEx).mirrors, m.dist_current = infinity) := by
  decide

/-- C2 amended: after `sync_push` every mirror's `dist_current` equals the
reset value `UINT_MAX` written by `Syncer_0::reset` (the true identity of
`min` on `unsigned int`), which is different from the sentinel
`infinity = UINT_MAX/4`. -/
theorem sync_push_mirrors_reset (f : MirroredField) :
    (∀ m ∈ (sync_push f).mirrors, m.dist_current = uintMax) ∧ uintMax ≠ infinity := by
  constructor
  · intro m hm
    rcases List.mem_map.mp hm with ⟨x, -, rfl⟩
    rfl
  · decide

/-- C2 witness: the amended statement applied to the concrete field `fEx`. -/
theorem sync_push_mirrors_reset_witness :
    (⟨uintMax, 5⟩ : NodeData).dist_current = uintMax ∧ uintMax ≠ infinity :=
  ⟨(sync_push_mirrors_reset fEx).1 ⟨uintMax, 5⟩ (by decide),
   (sync_push_mirrors_reset fEx).2⟩

/-- C10 witness: the no-overflow statement evaluated on `lineG` at source 1. -/
theorem new_dist_no_overflow_witness :
    (1 + ((relaxEdges ((lineG.adj 1).take 0) 1 (setOld lineG.data 1)) 1).dist_current)
        % uintMod
      = 1 + ((relaxEdges ((lineG.adj 1).take 0) 1 (setOld lineG.data 1)) 1).dist_current := by
  have hinv : ∀ v, (lineG.data v).dist_current ≤ infinity := by
    intro v
    show (if v = 1 then (⟨0, 0⟩ : NodeData) else ⟨infinity, infinity⟩).dist_current ≤ infinity
    split
    · decide
    · exact Nat.le_refl _
  exact (new_dist_no_overflow lineG 1 hinv 0).1

end BFSApp
